import Mathlib

/-!
Verification of the SCM version-resolution engine of `autobuild`
(file `autobuild/scm/git.py`), shallowly embedded in Lean.

Strings are modelled as `List Char` at the core (with `String` wrappers
mirroring the Python API), Python builtins (`str.rsplit`, `int`,
`str.lstrip`, slicing) are given faithful executable models, and the
pieces of the repository that live outside the provided sources
(`autobuild/scm/base.py` with `Semver` and `date`, `autobuild/common.py`
with `cmd`, `has_cmd`, `is_env_disabled`) are modelled from the spec and
marked as such in their doc comments.

External effects are modelled as explicit parameters: the filesystem is a
predicate saying which directories contain a `.git` marker directory, the
output of each external `git` invocation is a plain input string, and
todays date (function `date` of `autobuild/scm/base.py`) is an input
string as well.
-/

/-! ## Python string primitives, modelled over `List Char` -/

/-- Model of Python `str.split(sep)` with a one-character separator:
splits at every occurrence of `sep`, keeping empty pieces, so the result
is always nonempty. Mirrors the builtin used by `str.rsplit`. -/
def splitChars (sep : Char) : List Char → List (List Char)
  | [] => [[]]
  | c :: rest =>
    let r := splitChars sep rest
    if c = sep then [] :: r else (c :: r.headI) :: r.tail

/-- Joins pieces with a one-character separator; inverse of `splitChars`. -/
def joinChars (sep : Char) : List (List Char) → List Char
  | [] => []
  | [p] => p
  | p :: ps => p ++ sep :: joinChars sep ps

/-- Model of Python `str.rsplit(sep, maxsplit)`: at most `maxsplit`
splits, taken from the right; the leftover head keeps its separators. -/
def pyRsplit (sep : Char) (maxsplit : Nat) (l : List Char) : List (List Char) :=
  let ps := splitChars sep l
  if ps.length ≤ maxsplit + 1 then ps
  else joinChars sep (ps.take (ps.length - maxsplit)) :: ps.drop (ps.length - maxsplit)

/-- Model of the Python slice `xs[-n:]`: the last `n` elements. -/
def lastN (n : Nat) (l : List α) : List α := l.drop (l.length - n)

/-- Model of Python `str.endswith(pat)` over character lists. -/
def pyEndsWith (l pat : List Char) : Bool := decide (pat <:+ l)

/-- Whitespace characters recognised by Python `int()` stripping (the
common ASCII ones; exotic unicode spaces never occur in git output). -/
def isPySpace (c : Char) : Bool :=
  c = ' ' || c = '\t' || c = '\n' || c = '\r' || c = '\x0b' || c = '\x0c'

/-- Tail of a valid Python integer literal: digits, with single
underscores allowed only between digits. -/
def digitsTail : List Char → Bool
  | [] => true
  | [c] => c.isDigit
  | c :: d :: rest => (c.isDigit || (c = '_' && d.isDigit)) && digitsTail (d :: rest)

/-- Numeric value of a digit string, ignoring underscores. -/
def digitsVal (l : List Char) : Nat :=
  (l.filter (fun c => ¬ (c = '_'))).foldl (fun a c => a * 10 + (c.toNat - 48)) 0

/-- Valid unsigned Python integer literal: nonempty, starts with a digit,
underscores only between digits. -/
def validDigits (l : List Char) : Option Nat :=
  match l with
  | [] => none
  | c :: rest => if c.isDigit && digitsTail rest then some (digitsVal l) else none

/-- Strips `isPySpace` characters from both ends. -/
def pyStripSpace (l : List Char) : List Char :=
  ((l.dropWhile isPySpace).reverse.dropWhile isPySpace).reverse

/-- Model of the Python builtin `int(s)`: optional surrounding ASCII
whitespace, optional sign, then a digit string with optional single
underscores between digits; anything else fails (raises `ValueError`).
Python additionally accepts unicode decimal digits and spaces, which
never occur in git describe output; within the ASCII inputs produced by
the hyphen split the model is exact. -/
def pyInt (l : List Char) : Option Int :=
  match pyStripSpace l with
  | [] => none
  | c :: rest =>
    if c = '-' then (validDigits rest).map (fun n => -(n : Int))
    else if c = '+' then (validDigits rest).map (fun n => (n : Int))
    else (validDigits (c :: rest)).map (fun n => (n : Int))

/-! ## Semver, modelled from the spec -/

/-- Modelled from the spec: the `Semver` value type of
`autobuild/scm/base.py` (not in the provided sources). Attributes are
major, minor, patch (non-negative integers) and an optional pre-release
label. -/
structure Semver where
  major : Nat
  minor : Nat
  patch : Nat
  prerelease : Option String
deriving DecidableEq, Repr

/-- Semver numeric component: nonempty digits with no leading zero. -/
def semverNumeric (l : List Char) : Option Nat :=
  match l with
  | [] => none
  | [c] => if c.isDigit then some (c.toNat - 48) else none
  | c :: rest =>
    if c.isDigit && c ≠ '0' && rest.all Char.isDigit then some (digitsVal (c :: rest))
    else none

/-- Modelled from the spec: `Semver.parse` of `autobuild/scm/base.py`
(not in the provided sources). Recognises the grammar
`major.minor.patch[-prerelease]` and yields `none` (not a semantic
version) on anything else. -/
def Semver.parse (s : String) : Option Semver :=
  let l := s.data
  let core := l.takeWhile (fun c => ¬ (c = '-'))
  let rest := l.drop core.length
  match splitChars '.' core with
  | [a, b, c] =>
    match semverNumeric a, semverNumeric b, semverNumeric c with
    | some major, some minor, some patch =>
      match rest with
      | [] => some ⟨major, minor, patch, none⟩
      | _ :: pre => if pre = [] then none else some ⟨major, minor, patch, some (String.mk pre)⟩
    | _, _, _ => none
  | _ => none

/-- Modelled from the spec: rendering a `Semver` back to a string, as
used by Python string interpolation in `Git.version`. -/
def Semver.verString (v : Semver) : String :=
  toString v.major ++ "." ++ toString v.minor ++ "." ++ toString v.patch ++
    (match v.prerelease with
     | some p => "-" ++ p
     | none => "")

/-- Modelled from the spec: the derived operation `next` of `Semver`
returns a new instance with patch incremented by one and pre-release
cleared; it is pure and mutates nothing. -/
def Semver.next (v : Semver) : Semver :=
  ⟨v.major, v.minor, v.patch + 1, none⟩

/-! ## The descriptor parser (`_parse_describe` of `autobuild/scm/git.py`) -/

/-- The `version` field of `GitMeta`: either a parsed `Semver` or the raw
tag text (Python type `Semver | str`). -/
inductive TagVersion where
  | sv (v : Semver)
  | raw (s : String)
deriving DecidableEq, Repr

/-- The `GitMeta` named tuple of `autobuild/scm/git.py`. -/
structure GitMeta where
  dirty : Bool
  distance : Int
  commit : String
  version : TagVersion
deriving DecidableEq, Repr

/-- The tag-to-version step of `_parse_describe`:
`Semver.parse(raw_tag) or raw_tag.lstrip("v")`. Python `lstrip("v")`
removes every leading `v` character. -/
def tagVersionOf (rawTag : List Char) : TagVersion :=
  match Semver.parse (String.mk rawTag) with
  | some v => TagVersion.sv v
  | none => TagVersion.raw (String.mk (rawTag.dropWhile (fun c => c = 'v')))

/-- Core of `_parse_describe` over character lists. Mirrors the source:
detect and strip a trailing `-dirty`; `rsplit` on `-` with maxsplit 3
when dirty else 2; keep the last three components; `int` the distance
(a failure raises `ValueError`, modelled as `Except.error`); drop the
first character of the commit component; parse the tag as a `Semver`
with the lstripped raw text as fallback. A component count other than
three fails the tuple unpacking, also a `ValueError`. -/
def parseDescribeChars (ds : List Char) : Except String GitMeta :=
  let dirty := pyEndsWith ds ['-', 'd', 'i', 'r', 't', 'y']
  let core := if dirty then ds.take (ds.length - 6) else ds
  match lastN 3 (pyRsplit '-' (if dirty then 3 else 2) core) with
  | [rawTag, dist, commit] =>
    match pyInt dist with
    | none => Except.error ("ValueError: invalid literal for int with base 10: " ++ String.mk dist)
    | some n =>
      Except.ok
        { dirty := dirty
          distance := n
          commit := String.mk (commit.drop 1)
          version := tagVersionOf rawTag }
  | _ => Except.error "ValueError: not enough values to unpack"

/-- The function `_parse_describe` of `autobuild/scm/git.py`. -/
def _parse_describe (describe : String) : Except String GitMeta :=
  parseDescribeChars describe.data

/-! ## The version formatter (`Git.version` of `autobuild/scm/git.py`) -/

/-- The `next_version` selection of `Git.version`:
`meta.version.next if isinstance(meta.version, Semver) else meta.version`,
rendered as the string that Python interpolation produces. -/
def nextVersionStr : TagVersion → String
  | TagVersion.sv v => v.next.verString
  | TagVersion.raw s => s

/-- Rendering of `str(meta.version)` in the distance-zero clean branch. -/
def versionString : TagVersion → String
  | TagVersion.sv v => v.verString
  | TagVersion.raw s => s

/-- The three-branch formatting rule at the end of `Git.version`. The
parameter `today` models `date()` of `autobuild/scm/base.py` (modelled
from the spec: the current local date formatted `YYYYMMDD`). -/
def formatVersion (meta : GitMeta) (today : String) : String :=
  if meta.dirty then
    nextVersionStr meta.version ++ "-dev" ++ toString meta.distance ++ ".g" ++ meta.commit ++ ".d" ++ today
  else if meta.distance ≠ 0 then
    nextVersionStr meta.version ++ "-dev" ++ toString meta.distance ++ ".g" ++ meta.commit
  else versionString meta.version

/-! ## The repository locator (`_find_repo_dir` of `autobuild/scm/git.py`) -/

/-- Filesystem paths, modelled as the list of directory names from the
root; the parent of a path drops the last component and the parent of
the root `[]` is itself, matching `start.parent == start` at `/`. -/
abbrev FsPath := List String

/-- The module constant `MAX_GIT_SEARCH_DEPTH` of `autobuild/scm/git.py`. -/
def MAX_GIT_SEARCH_DEPTH : Nat := 20

/-- Iterated parent: `ancestor p k` is `p` with `k` trailing components
removed, the directory `k` levels above `p`. -/
def ancestor (p : FsPath) : Nat → FsPath
  | 0 => p
  | Nat.succ k => ancestor p.dropLast k

/-- The function `_find_repo_dir` of `autobuild/scm/git.py`.
`hasGitDir p` models `(p / ".git").is_dir()` and `searchDisabled` models
`is_env_disabled("AUTOBUILD_SCM_SEARCH")` (modelled from the spec: the
environment toggle that disables walking up parent directories). -/
def _find_repo_dir (hasGitDir : FsPath → Bool) (searchDisabled : Bool)
    (start : FsPath) (level : Nat) : Option FsPath :=
  if MAX_GIT_SEARCH_DEPTH ≤ level then none
  else if hasGitDir start then some start
  else if searchDisabled then none
  else if start.dropLast = start then none
  else _find_repo_dir hasGitDir searchDisabled start.dropLast (level + 1)
termination_by MAX_GIT_SEARCH_DEPTH - level
decreasing_by simp_wf; omega

/-! ## The `Git` facade and module-level functions of `autobuild/scm/git.py` -/

/-- The `Git` class: its only state is the `repo_dir` computed once at
construction. -/
structure Git where
  repo_dir : Option FsPath

/-- The constructor `Git.__init__`: runs `_find_repo_dir(Path(root))`. -/
def Git.make (hasGitDir : FsPath → Bool) (searchDisabled : Bool) (root : FsPath) : Git :=
  ⟨_find_repo_dir hasGitDir searchDisabled root 0⟩

/-- The property `Git.revision`: the stdout of `git rev-parse HEAD` when
a repository root was found, else `None`. The stdout of the external
call is the parameter `out`. -/
def Git.revision (g : Git) (out : String) : Option String :=
  if g.repo_dir.isSome then some out else none

/-- The property `Git.url`: stdout of `git remote get-url origin` when a
root was found, else `None`. -/
def Git.url (g : Git) (out : String) : Option String :=
  if g.repo_dir.isSome then some out else none

/-- The property `Git.branch`: stdout of `git rev-parse --abbrev-ref
HEAD` when a root was found, else `None`. -/
def Git.branch (g : Git) (out : String) : Option String :=
  if g.repo_dir.isSome then some out else none

/-- The property `Git.version`: `None` when no repository root was
found; otherwise parse the descriptor text (the stdout of
`git describe --dirty --tags --long`, here the parameter `describeOut`)
and format it. A parse failure propagates as an error. -/
def Git.version (g : Git) (describeOut today : String) : Except String (Option String) :=
  match g.repo_dir with
  | none => Except.ok none
  | some _ =>
    match _parse_describe describeOut with
    | Except.error e => Except.error e
    | Except.ok meta => Except.ok (some (formatVersion meta today))

/-- The function `new_client`: `None` when the `git` command is not
available on the host (`has_cmd("git")`, modelled from the spec as the
boolean `gitAvailable`), else a constructed `Git`. -/
def new_client (gitAvailable : Bool) (hasGitDir : FsPath → Bool)
    (searchDisabled : Bool) (root : FsPath) : Option Git :=
  if gitAvailable then some (Git.make hasGitDir searchDisabled root) else none

/-- The function `get_version`: the facade version of the client, or
`None` when no client could be made. -/
def get_version (gitAvailable : Bool) (hasGitDir : FsPath → Bool) (searchDisabled : Bool)
    (root : FsPath) (describeOut today : String) : Except String (Option String) :=
  match new_client gitAvailable hasGitDir searchDisabled root with
  | some g => g.version describeOut today
  | none => Except.ok none

/-! ## Lemmas about the string primitives -/

theorem splitChars_ne_nil (sep : Char) (l : List Char) : splitChars sep l ≠ [] := by
  cases l with
  | nil => simp [splitChars]
  | cons c rest => by_cases hc : c = sep <;> simp [splitChars, hc]

theorem splitChars_cons_of_ne (sep c : Char) (rest p : List Char) (ps : List (List Char))
    (hc : ¬ (c = sep)) (h : splitChars sep rest = p :: ps) :
    splitChars sep (c :: rest) = (c :: p) :: ps := by
  simp [splitChars, hc, h]

theorem splitChars_cons_of_eq (sep : Char) (rest : List Char) :
    splitChars sep (sep :: rest) = [] :: splitChars sep rest := by
  simp [splitChars]

theorem joinChars_nil_cons (sep : Char) (p : List Char) (ps : List (List Char)) :
    joinChars sep ([] :: p :: ps) = sep :: joinChars sep (p :: ps) := rfl

theorem joinChars_cons_cons (sep c : Char) (p : List Char) (ps : List (List Char)) :
    joinChars sep ((c :: p) :: ps) = c :: joinChars sep (p :: ps) := by
  cases ps with
  | nil => rfl
  | cons q qs => rfl

theorem joinChars_splitChars (sep : Char) (l : List Char) :
    joinChars sep (splitChars sep l) = l := by
  induction l with
  | nil => rfl
  | cons c rest ih =>
    rcases h : splitChars sep rest with _ | ⟨p, ps⟩
    · exact absurd h (splitChars_ne_nil sep rest)
    · rw [h] at ih
      by_cases hc : c = sep
      · subst hc
        rw [splitChars_cons_of_eq, h, joinChars_nil_cons, ih]
      · rw [splitChars_cons_of_ne sep c rest p ps hc h, joinChars_cons_cons, ih]

theorem splitChars_append_sep (sep : Char) (xs ys : List Char) :
    splitChars sep (xs ++ sep :: ys) = splitChars sep xs ++ splitChars sep ys := by
  induction xs with
  | nil =>
    rw [List.nil_append, splitChars_cons_of_eq]
    rfl
  | cons c xs ih =>
    rcases h : splitChars sep xs with _ | ⟨p, ps⟩
    · exact absurd h (splitChars_ne_nil sep xs)
    · rw [h] at ih
      by_cases hc : c = sep
      · subst hc
        rw [List.cons_append, splitChars_cons_of_eq, splitChars_cons_of_eq, ih, h]
        rfl
      · rw [List.cons_append,
          splitChars_cons_of_ne sep c (xs ++ sep :: ys) p (ps ++ splitChars sep ys) hc ih,
          splitChars_cons_of_ne sep c xs p ps hc h]
        rfl

theorem splitChars_of_not_mem (sep : Char) (l : List Char) (h : sep ∉ l) :
    splitChars sep l = [l] := by
  induction l with
  | nil => rfl
  | cons c rest ih =>
    have hc : ¬ (c = sep) := fun he => h (he ▸ List.mem_cons_self c rest)
    have hrest : sep ∉ rest := fun hm => h (List.mem_cons_of_mem c hm)
    exact splitChars_cons_of_ne sep c rest rest [] hc (ih hrest)

theorem last_sep_decomp_unique (sep : Char) (A B P Q : List Char)
    (he : A ++ sep :: B = P ++ sep :: Q) (hB : sep ∉ B) (hQ : sep ∉ Q) :
    B = Q := by
  have hsB : sep :: B <:+ P ++ sep :: Q := he ▸ List.suffix_append A (sep :: B)
  have hsQ : sep :: Q <:+ P ++ sep :: Q := List.suffix_append P (sep :: Q)
  rcases Nat.lt_trichotomy B.length Q.length with hlt | heq | hgt
  · exfalso
    have hsub : sep :: B <:+ sep :: Q := by
      refine List.suffix_of_suffix_length_le hsB hsQ ?_
      simp only [List.length_cons]
      omega
    rcases List.suffix_cons_iff.mp hsub with hAll | hIn
    · have hlen := congrArg List.length hAll
      simp only [List.length_cons] at hlen
      omega
    · exact hQ (List.IsSuffix.subset hIn (List.mem_cons_self sep B))
  · have hsub : sep :: B <:+ sep :: Q := by
      refine List.suffix_of_suffix_length_le hsB hsQ ?_
      simp only [List.length_cons]
      omega
    have heq2 : sep :: B = sep :: Q := by
      refine List.IsSuffix.eq_of_length hsub ?_
      simp only [List.length_cons]
      omega
    injection heq2 with h1 h2
  · exfalso
    have hsub : sep :: Q <:+ sep :: B := by
      refine List.suffix_of_suffix_length_le hsQ hsB ?_
      simp only [List.length_cons]
      omega
    rcases List.suffix_cons_iff.mp hsub with hAll | hIn
    · have hlen := congrArg List.length hAll
      simp only [List.length_cons] at hlen
      omega
    · exact hB (List.IsSuffix.subset hIn (List.mem_cons_self sep Q))

/-! ## Lemmas about digits and `pyInt` -/

theorem isPySpace_eq_false_of_isDigit (c : Char) (h : c.isDigit = true) :
    isPySpace c = false := by
  simp only [isPySpace, Bool.or_eq_false_iff, decide_eq_false_iff_not]
  refine ⟨⟨⟨⟨⟨?_, ?_⟩, ?_⟩, ?_⟩, ?_⟩, ?_⟩ <;>
    (rintro rfl; exact absurd h (by decide))

theorem ne_underscore_of_isDigit (c : Char) (h : c.isDigit = true) : ¬ (c = '_') := by
  rintro rfl
  exact absurd h (by decide)

theorem ne_dash_of_isDigit (c : Char) (h : c.isDigit = true) : ¬ (c = '-') := by
  rintro rfl
  exact absurd h (by decide)

theorem ne_plus_of_isDigit (c : Char) (h : c.isDigit = true) : ¬ (c = '+') := by
  rintro rfl
  exact absurd h (by decide)

theorem dash_not_mem_of_all_digit (l : List Char) (h : ∀ c ∈ l, c.isDigit = true) :
    '-' ∉ l := by
  intro hm
  exact ne_dash_of_isDigit '-' (h '-' hm) rfl

theorem dropWhile_isPySpace_of_all_digit (l : List Char) (h : ∀ c ∈ l, c.isDigit = true) :
    l.dropWhile isPySpace = l := by
  cases l with
  | nil => rfl
  | cons c rest =>
    rw [List.dropWhile_cons,
      isPySpace_eq_false_of_isDigit c (h c (List.mem_cons_self c rest))]
    simp

theorem pyStripSpace_of_all_digit (l : List Char) (h : ∀ c ∈ l, c.isDigit = true) :
    pyStripSpace l = l := by
  unfold pyStripSpace
  rw [dropWhile_isPySpace_of_all_digit l h,
    dropWhile_isPySpace_of_all_digit l.reverse (fun c hc => h c (List.mem_reverse.mp hc)),
    List.reverse_reverse]

theorem digitsTail_of_all_digit (l : List Char) (h : ∀ c ∈ l, c.isDigit = true) :
    digitsTail l = true := by
  induction l with
  | nil => rfl
  | cons c rest ih =>
    have hc := h c (List.mem_cons_self c rest)
    have hrest : ∀ d ∈ rest, d.isDigit = true := fun d hd => h d (List.mem_cons_of_mem c hd)
    cases rest with
    | nil => simp [digitsTail, hc]
    | cons d rest2 => simp [digitsTail, hc, ih hrest]

theorem validDigits_of_all_digit (l : List Char) (hne : l ≠ [])
    (h : ∀ c ∈ l, c.isDigit = true) : validDigits l = some (digitsVal l) := by
  cases l with
  | nil => exact absurd rfl hne
  | cons c rest =>
    have hc := h c (List.mem_cons_self c rest)
    have hrest : ∀ d ∈ rest, d.isDigit = true := fun d hd => h d (List.mem_cons_of_mem c hd)
    have ht := digitsTail_of_all_digit rest hrest
    simp [validDigits, hc, ht]

theorem pyInt_of_all_digit (l : List Char) (hne : l ≠ [])
    (h : ∀ c ∈ l, c.isDigit = true) : pyInt l = some (digitsVal l : Int) := by
  unfold pyInt
  rw [pyStripSpace_of_all_digit l h]
  cases l with
  | nil => exact absurd rfl hne
  | cons c rest =>
    have hc := h c (List.mem_cons_self c rest)
    simp [if_neg (ne_dash_of_isDigit c hc), if_neg (ne_plus_of_isDigit c hc),
      validDigits_of_all_digit (c :: rest) hne h]

/-! ## Shape lemmas for descriptor strings -/

theorem splitChars_descriptor (tagC dC gC : List Char) (hd : '-' ∉ dC) (hg : '-' ∉ gC) :
    splitChars '-' (tagC ++ '-' :: (dC ++ '-' :: gC)) = splitChars '-' tagC ++ [dC, gC] := by
  rw [splitChars_append_sep, splitChars_append_sep,
    splitChars_of_not_mem '-' dC hd, splitChars_of_not_mem '-' gC hg]
  rfl

theorem splitChars_singleton_eq (sep : Char) (l p : List Char)
    (h : splitChars sep l = [p]) : p = l := by
  have hj := joinChars_splitChars sep l
  rw [h] at hj
  exact hj

theorem joinChars_eq_of_split (sep : Char) (l : List Char) (ps : List (List Char))
    (h : splitChars sep l = ps) : joinChars sep ps = l := by
  have hj := joinChars_splitChars sep l
  rw [h] at hj
  exact hj

theorem pyRsplit2_descriptor (tagC dC gC : List Char) (hd : '-' ∉ dC) (hg : '-' ∉ gC) :
    pyRsplit '-' 2 (tagC ++ '-' :: (dC ++ '-' :: gC)) = [tagC, dC, gC] := by
  have hsplit := splitChars_descriptor tagC dC gC hd hg
  simp only [pyRsplit, hsplit]
  rcases h : splitChars '-' tagC with _ | ⟨p, ps⟩
  · exact absurd h (splitChars_ne_nil '-' tagC)
  · cases ps with
    | nil =>
      have hp := splitChars_singleton_eq '-' tagC p h
      subst hp
      simp
    | cons q qs =>
      have hassoc : p :: q :: (qs ++ [dC, gC]) = (p :: q :: qs) ++ [dC, gC] := by simp
      simp only [List.cons_append]
      rw [hassoc]
      have hlen : ¬ (((p :: q :: qs) ++ [dC, gC]).length ≤ 2 + 1) := by
        simp only [List.length_append, List.length_cons]
        omega
      rw [if_neg hlen]
      have hsub : ((p :: q :: qs) ++ [dC, gC]).length - 2 = (p :: q :: qs).length := by
        simp only [List.length_append, List.length_cons, List.length_nil]
        omega
      rw [hsub, List.take_left, List.drop_left, joinChars_eq_of_split '-' tagC (p :: q :: qs) h]

theorem lastN_three_of_three (a b c : List Char) : lastN 3 [a, b, c] = [a, b, c] := by
  simp [lastN]

theorem lastN_three_of_four (a b c d : List Char) : lastN 3 [a, b, c, d] = [b, c, d] := by
  simp [lastN]

theorem pyRsplit3_nohyphen_tag (tagC dC gC : List Char) (htag : '-' ∉ tagC)
    (hd : '-' ∉ dC) (hg : '-' ∉ gC) :
    pyRsplit '-' 3 (tagC ++ '-' :: (dC ++ '-' :: gC)) = [tagC, dC, gC] := by
  have hsplit := splitChars_descriptor tagC dC gC hd hg
  rw [splitChars_of_not_mem '-' tagC htag] at hsplit
  simp only [pyRsplit, hsplit]
  simp

theorem pyRsplit3_hyphen_tag (A B dC gC : List Char) (hB : '-' ∉ B)
    (hd : '-' ∉ dC) (hg : '-' ∉ gC) :
    lastN 3 (pyRsplit '-' 3 ((A ++ '-' :: B) ++ '-' :: (dC ++ '-' :: gC))) = [B, dC, gC] := by
  have hsplit : splitChars '-' ((A ++ '-' :: B) ++ '-' :: (dC ++ '-' :: gC))
      = splitChars '-' A ++ [B] ++ [dC, gC] := by
    rw [splitChars_append_sep '-' (A ++ '-' :: B) (dC ++ '-' :: gC),
      splitChars_append_sep '-' A B,
      splitChars_append_sep '-' dC gC,
      splitChars_of_not_mem '-' B hB,
      splitChars_of_not_mem '-' dC hd,
      splitChars_of_not_mem '-' gC hg]
    simp
  simp only [pyRsplit, hsplit]
  rcases h : splitChars '-' A with _ | ⟨p, ps⟩
  · exact absurd h (splitChars_ne_nil '-' A)
  · cases ps with
    | nil =>
      have hp := splitChars_singleton_eq '-' A p h
      subst hp
      have hshape : ([p] ++ [B] ++ [dC, gC] : List (List Char)) = [p, B, dC, gC] := by simp
      rw [hshape]
      have hlen : ([p, B, dC, gC] : List (List Char)).length ≤ 3 + 1 := by simp
      rw [if_pos hlen]
      exact lastN_three_of_four p B dC gC
    | cons q qs =>
      have hshape : ((p :: q :: qs) ++ [B] ++ [dC, gC] : List (List Char))
          = (p :: q :: qs) ++ [B, dC, gC] := by simp
      rw [hshape]
      have hlen : ¬ (((p :: q :: qs) ++ [B, dC, gC]).length ≤ 3 + 1) := by
        simp only [List.length_append, List.length_cons]
        omega
      rw [if_neg hlen]
      have hsub : ((p :: q :: qs) ++ [B, dC, gC]).length - 3 = (p :: q :: qs).length := by
        simp only [List.length_append, List.length_cons, List.length_nil]
        omega
      rw [hsub, List.take_left, List.drop_left, joinChars_eq_of_split '-' A (p :: q :: qs) h]
      exact lastN_three_of_four A B dC gC

/-! ## Dirty-suffix detection lemmas -/

theorem pyEndsWith_append (l pat : List Char) : pyEndsWith (l ++ pat) pat = true := by
  simp [pyEndsWith, List.suffix_append]

theorem not_mem_gcommit (cC : List Char) (hc : '-' ∉ cC) : '-' ∉ ('g' :: cC) := by
  intro hm
  rcases List.mem_cons.mp hm with h1 | h2
  · exact absurd h1 (by decide)
  · exact hc h2

theorem not_dirty_of_gcommit (tagC dC cC : List Char) (hc : '-' ∉ cC) :
    pyEndsWith (tagC ++ '-' :: (dC ++ '-' :: ('g' :: cC))) ['-', 'd', 'i', 'r', 't', 'y'] = false := by
  simp only [pyEndsWith, decide_eq_false_iff_not]
  intro hsuf
  obtain ⟨pre, hpre⟩ := hsuf
  have hassoc : tagC ++ '-' :: (dC ++ '-' :: ('g' :: cC))
      = (tagC ++ '-' :: dC) ++ '-' :: ('g' :: cC) := by simp
  have hpat : (['-', 'd', 'i', 'r', 't', 'y'] : List Char) = '-' :: ['d', 'i', 'r', 't', 'y'] := rfl
  rw [hassoc, hpat] at hpre
  have heq := last_sep_decomp_unique '-' pre ['d', 'i', 'r', 't', 'y']
    (tagC ++ '-' :: dC) ('g' :: cC) hpre (by decide) (not_mem_gcommit cC hc)
  injection heq with h1 h2
  exact absurd h1 (by decide)

theorem take_strip_append (l pat : List Char) (h : pat.length = 6) :
    (l ++ pat).take ((l ++ pat).length - 6) = l := by
  rw [List.length_append, h]
  have h2 : l.length + 6 - 6 = l.length := by omega
  rw [h2, List.take_left]

/-! ## Evaluation lemmas for the descriptor parser on shaped inputs -/

theorem parseDescribeChars_clean_eq (tagC dC cC : List Char) (hd : '-' ∉ dC) (hc : '-' ∉ cC) :
    parseDescribeChars (tagC ++ '-' :: (dC ++ '-' :: ('g' :: cC))) =
      (match pyInt dC with
       | none => Except.error ("ValueError: invalid literal for int with base 10: " ++ String.mk dC)
       | some n => Except.ok ⟨false, n, String.mk cC, tagVersionOf tagC⟩) := by
  have hg := not_mem_gcommit cC hc
  have hdirty := not_dirty_of_gcommit tagC dC cC hc
  have hsplit := pyRsplit2_descriptor tagC dC ('g' :: cC) hd hg
  simp only [parseDescribeChars, hdirty, Bool.false_eq_true, if_false]
  rw [hsplit, lastN_three_of_three]
  rfl

theorem parseDescribeChars_dirty_eq (tagC dC cC : List Char) (htag : '-' ∉ tagC)
    (hd : '-' ∉ dC) (hc : '-' ∉ cC) :
    parseDescribeChars ((tagC ++ '-' :: (dC ++ '-' :: ('g' :: cC))) ++ ['-', 'd', 'i', 'r', 't', 'y']) =
      (match pyInt dC with
       | none => Except.error ("ValueError: invalid literal for int with base 10: " ++ String.mk dC)
       | some n => Except.ok ⟨true, n, String.mk cC, tagVersionOf tagC⟩) := by
  have hg := not_mem_gcommit cC hc
  have hdirty := pyEndsWith_append (tagC ++ '-' :: (dC ++ '-' :: ('g' :: cC))) ['-', 'd', 'i', 'r', 't', 'y']
  have hcore := take_strip_append (tagC ++ '-' :: (dC ++ '-' :: ('g' :: cC))) ['-', 'd', 'i', 'r', 't', 'y'] rfl
  have hsplit := pyRsplit3_nohyphen_tag tagC dC ('g' :: cC) htag hd hg
  simp only [parseDescribeChars, hdirty, if_true]
  rw [hcore, hsplit, lastN_three_of_three]
  rfl

theorem parseDescribeChars_dirty_hyphen_eq (A B dC cC : List Char) (hB : '-' ∉ B)
    (hd : '-' ∉ dC) (hc : '-' ∉ cC) :
    parseDescribeChars (((A ++ '-' :: B) ++ '-' :: (dC ++ '-' :: ('g' :: cC))) ++ ['-', 'd', 'i', 'r', 't', 'y']) =
      (match pyInt dC with
       | none => Except.error ("ValueError: invalid literal for int with base 10: " ++ String.mk dC)
       | some n => Except.ok ⟨true, n, String.mk cC, tagVersionOf B⟩) := by
  have hg := not_mem_gcommit cC hc
  have hdirty := pyEndsWith_append ((A ++ '-' :: B) ++ '-' :: (dC ++ '-' :: ('g' :: cC))) ['-', 'd', 'i', 'r', 't', 'y']
  have hcore := take_strip_append ((A ++ '-' :: B) ++ '-' :: (dC ++ '-' :: ('g' :: cC))) ['-', 'd', 'i', 'r', 't', 'y'] rfl
  have hsplit := pyRsplit3_hyphen_tag A B dC ('g' :: cC) hB hd hg
  simp only [parseDescribeChars, hdirty, if_true]
  rw [hcore, hsplit]
  rfl

theorem parseDescribeChars_single (l : List Char) (h : '-' ∉ l) :
    parseDescribeChars l = Except.error "ValueError: not enough values to unpack" := by
  have hdirty : pyEndsWith l ['-', 'd', 'i', 'r', 't', 'y'] = false := by
    simp only [pyEndsWith, decide_eq_false_iff_not]
    intro hsuf
    exact h (List.IsSuffix.subset hsuf (by decide))
  have hsplit := splitChars_of_not_mem '-' l h
  simp only [parseDescribeChars, hdirty, Bool.false_eq_true, if_false, pyRsplit, hsplit]
  simp [lastN]

theorem parseDescribeChars_two (a b : List Char) (ha : '-' ∉ a) (hb : '-' ∉ b) :
    parseDescribeChars (a ++ '-' :: b) = Except.error "ValueError: not enough values to unpack" := by
  by_cases hd : b = ['d', 'i', 'r', 't', 'y']
  · subst hd
    have hdirty : pyEndsWith (a ++ '-' :: ['d', 'i', 'r', 't', 'y']) ['-', 'd', 'i', 'r', 't', 'y'] = true := by
      have hsh : a ++ '-' :: ['d', 'i', 'r', 't', 'y'] = a ++ ['-', 'd', 'i', 'r', 't', 'y'] := rfl
      rw [hsh]
      exact pyEndsWith_append a ['-', 'd', 'i', 'r', 't', 'y']
    have hcore : (a ++ '-' :: ['d', 'i', 'r', 't', 'y']).take
        ((a ++ '-' :: ['d', 'i', 'r', 't', 'y']).length - 6) = a :=
      take_strip_append a ['-', 'd', 'i', 'r', 't', 'y'] rfl
    have hsplit := splitChars_of_not_mem '-' a ha
    simp only [parseDescribeChars, hdirty, if_true]
    rw [hcore]
    simp only [pyRsplit, hsplit]
    simp [lastN]
  · have hdirty : pyEndsWith (a ++ '-' :: b) ['-', 'd', 'i', 'r', 't', 'y'] = false := by
      simp only [pyEndsWith, decide_eq_false_iff_not]
      intro hsuf
      obtain ⟨pre, hpre⟩ := hsuf
      have hpat : (['-', 'd', 'i', 'r', 't', 'y'] : List Char) = '-' :: ['d', 'i', 'r', 't', 'y'] := rfl
      rw [hpat] at hpre
      have heq := last_sep_decomp_unique '-' pre ['d', 'i', 'r', 't', 'y'] a b hpre (by decide) hb
      exact hd heq.symm
    have hsplit : splitChars '-' (a ++ '-' :: b) = [a, b] := by
      rw [splitChars_append_sep, splitChars_of_not_mem '-' a ha, splitChars_of_not_mem '-' b hb]
      rfl
    simp only [parseDescribeChars, hdirty, Bool.false_eq_true, if_false, pyRsplit, hsplit]
    simp [lastN]

/-! ## Lemmas about the repository locator -/

theorem ancestor_succ (p : FsPath) (k : Nat) : ancestor p (k + 1) = ancestor p.dropLast k := rfl

theorem find_repo_dir_none_of_max (hm : FsPath → Bool) (sd : Bool) (p : FsPath) (lvl : Nat)
    (h : MAX_GIT_SEARCH_DEPTH ≤ lvl) : _find_repo_dir hm sd p lvl = none := by
  unfold _find_repo_dir
  rw [if_pos h]

theorem find_repo_dir_marker (hm : FsPath → Bool) (sd : Bool) (p : FsPath) (lvl : Nat)
    (hlt : lvl < MAX_GIT_SEARCH_DEPTH) (hmark : hm p = true) :
    _find_repo_dir hm sd p lvl = some p := by
  unfold _find_repo_dir
  rw [if_neg (by omega), hmark]
  simp

theorem find_repo_dir_disabled_no_marker (hm : FsPath → Bool) (p : FsPath) (lvl : Nat)
    (hmark : hm p = false) : _find_repo_dir hm true p lvl = none := by
  unfold _find_repo_dir
  by_cases h : MAX_GIT_SEARCH_DEPTH ≤ lvl
  · rw [if_pos h]
  · rw [if_neg h, hmark]
    simp

theorem find_repo_dir_none_aux (hm : FsPath → Bool) (sd : Bool) :
    ∀ n p lvl, MAX_GIT_SEARCH_DEPTH - lvl ≤ n →
      (∀ k, k + lvl < MAX_GIT_SEARCH_DEPTH → hm (ancestor p k) = false) →
      _find_repo_dir hm sd p lvl = none := by
  intro n
  induction n with
  | zero =>
    intro p lvl hle hmk
    exact find_repo_dir_none_of_max hm sd p lvl (by omega)
  | succ n ih =>
    intro p lvl hle hmk
    by_cases hmax : MAX_GIT_SEARCH_DEPTH ≤ lvl
    · exact find_repo_dir_none_of_max hm sd p lvl hmax
    · unfold _find_repo_dir
      rw [if_neg hmax]
      have h0 : hm p = false := by
        have := hmk 0 (by omega)
        simpa [ancestor] using this
      rw [h0]
      simp only [Bool.false_eq_true, if_false]
      cases sd with
      | true => simp
      | false =>
        simp only [Bool.false_eq_true, if_false]
        by_cases hroot : p.dropLast = p
        · rw [if_pos hroot]
        · rw [if_neg hroot]
          apply ih
          · omega
          · intro k hk
            have := hmk (k + 1) (by omega)
            rw [ancestor_succ] at this
            exact this

theorem find_repo_dir_congr_aux (hm1 hm2 : FsPath → Bool) (sd : Bool) :
    ∀ n p lvl, MAX_GIT_SEARCH_DEPTH - lvl ≤ n →
      (∀ k, k + lvl < MAX_GIT_SEARCH_DEPTH → hm1 (ancestor p k) = hm2 (ancestor p k)) →
      _find_repo_dir hm1 sd p lvl = _find_repo_dir hm2 sd p lvl := by
  intro n
  induction n with
  | zero =>
    intro p lvl hle hmk
    rw [find_repo_dir_none_of_max hm1 sd p lvl (by omega),
      find_repo_dir_none_of_max hm2 sd p lvl (by omega)]
  | succ n ih =>
    intro p lvl hle hmk
    by_cases hmax : MAX_GIT_SEARCH_DEPTH ≤ lvl
    · rw [find_repo_dir_none_of_max hm1 sd p lvl hmax,
        find_repo_dir_none_of_max hm2 sd p lvl hmax]
    · have h0 : hm1 p = hm2 p := by
        have := hmk 0 (by omega)
        simpa [ancestor] using this
      conv =>
        lhs
        rw [_find_repo_dir]
      conv =>
        rhs
        rw [_find_repo_dir]
      rw [if_neg hmax, if_neg hmax, h0]
      cases h2 : hm2 p with
      | true => simp
      | false =>
        simp only [Bool.false_eq_true, if_false]
        cases sd with
        | true => simp
        | false =>
          simp only [Bool.false_eq_true, if_false]
          by_cases hroot : p.dropLast = p
          · rw [if_pos hroot, if_pos hroot]
          · rw [if_neg hroot, if_neg hroot]
            apply ih
            · omega
            · intro k hk
              have := hmk (k + 1) (by omega)
              rw [ancestor_succ] at this
              exact this

theorem not_dirty_of_clean_shape (tagC dC eC : List Char) (he : '-' ∉ eC)
    (hne : eC ≠ ['d', 'i', 'r', 't', 'y']) :
    pyEndsWith (tagC ++ '-' :: (dC ++ '-' :: eC)) ['-', 'd', 'i', 'r', 't', 'y'] = false := by
  simp only [pyEndsWith, decide_eq_false_iff_not]
  intro hsuf
  obtain ⟨pre, hpre⟩ := hsuf
  have hassoc : tagC ++ '-' :: (dC ++ '-' :: eC)
      = (tagC ++ '-' :: dC) ++ '-' :: eC := by simp
  have hpat : (['-', 'd', 'i', 'r', 't', 'y'] : List Char) = '-' :: ['d', 'i', 'r', 't', 'y'] := rfl
  rw [hassoc, hpat] at hpre
  have heq := last_sep_decomp_unique '-' pre ['d', 'i', 'r', 't', 'y']
    (tagC ++ '-' :: dC) eC hpre (by decide) he
  exact hne heq.symm

theorem parseDescribeChars_clean_general (tagC dC eC : List Char) (hd : '-' ∉ dC)
    (he : '-' ∉ eC) (hne : eC ≠ ['d', 'i', 'r', 't', 'y']) :
    parseDescribeChars (tagC ++ '-' :: (dC ++ '-' :: eC)) =
      (match pyInt dC with
       | none => Except.error ("ValueError: invalid literal for int with base 10: " ++ String.mk dC)
       | some n => Except.ok ⟨false, n, String.mk (eC.drop 1), tagVersionOf tagC⟩) := by
  have hdirty := not_dirty_of_clean_shape tagC dC eC he hne
  have hsplit := pyRsplit2_descriptor tagC dC eC hd he
  simp only [parseDescribeChars, hdirty, Bool.false_eq_true, if_false]
  rw [hsplit, lastN_three_of_three]

theorem parseDescribeChars_dirty_general (tagC dC eC : List Char) (htag : '-' ∉ tagC)
    (hd : '-' ∉ dC) (he : '-' ∉ eC) :
    parseDescribeChars ((tagC ++ '-' :: (dC ++ '-' :: eC)) ++ ['-', 'd', 'i', 'r', 't', 'y']) =
      (match pyInt dC with
       | none => Except.error ("ValueError: invalid literal for int with base 10: " ++ String.mk dC)
       | some n => Except.ok ⟨true, n, String.mk (eC.drop 1), tagVersionOf tagC⟩) := by
  have hdirty := pyEndsWith_append (tagC ++ '-' :: (dC ++ '-' :: eC)) ['-', 'd', 'i', 'r', 't', 'y']
  have hcore := take_strip_append (tagC ++ '-' :: (dC ++ '-' :: eC)) ['-', 'd', 'i', 'r', 't', 'y'] rfl
  have hsplit := pyRsplit3_nohyphen_tag tagC dC eC htag hd he
  simp only [parseDescribeChars, hdirty, if_true]
  rw [hcore, hsplit, lastN_three_of_three]

theorem parseDescribeChars_dirty_hyphen_general (A B dC eC : List Char) (hB : '-' ∉ B)
    (hd : '-' ∉ dC) (he : '-' ∉ eC) :
    parseDescribeChars (((A ++ '-' :: B) ++ '-' :: (dC ++ '-' :: eC)) ++ ['-', 'd', 'i', 'r', 't', 'y']) =
      (match pyInt dC with
       | none => Except.error ("ValueError: invalid literal for int with base 10: " ++ String.mk dC)
       | some n => Except.ok ⟨true, n, String.mk (eC.drop 1), tagVersionOf B⟩) := by
  have hdirty := pyEndsWith_append ((A ++ '-' :: B) ++ '-' :: (dC ++ '-' :: eC)) ['-', 'd', 'i', 'r', 't', 'y']
  have hcore := take_strip_append ((A ++ '-' :: B) ++ '-' :: (dC ++ '-' :: eC)) ['-', 'd', 'i', 'r', 't', 'y'] rfl
  have hsplit := pyRsplit3_hyphen_tag A B dC eC hB hd he
  simp only [parseDescribeChars, hdirty, if_true]
  rw [hcore, hsplit]

/-! ## Claim theorems -/

/-- C6: the repository-root search terminates and returns none when the
recursion depth reaches `MAX_GIT_SEARCH_DEPTH`, when the filesystem root
is reached without a marker (a directory equal to its own parent), or
when upward search is disabled and the start lacks the marker; and a
start whose first `MAX_GIT_SEARCH_DEPTH` ancestors (the start included)
all lack the marker yields none rather than unbounded recursion.
Termination itself is witnessed by `_find_repo_dir` being accepted as a
total function. -/
theorem C6_locator_terminates (hm : FsPath → Bool) (sd : Bool) (p : FsPath) (lvl : Nat) :
    (MAX_GIT_SEARCH_DEPTH ≤ lvl → _find_repo_dir hm sd p lvl = none)
    ∧ (p.dropLast = p → hm p = false → _find_repo_dir hm sd p lvl = none)
    ∧ (sd = true → hm p = false → _find_repo_dir hm sd p lvl = none)
    ∧ ((∀ k, k < MAX_GIT_SEARCH_DEPTH → hm (ancestor p k) = false) →
        _find_repo_dir hm sd p 0 = none) := by
  refine ⟨find_repo_dir_none_of_max hm sd p lvl, ?_, ?_, ?_⟩
  · intro hroot h
    unfold _find_repo_dir
    by_cases hmax : MAX_GIT_SEARCH_DEPTH ≤ lvl
    · rw [if_pos hmax]
    · rw [if_neg hmax, h]
      cases sd with
      | true => simp
      | false =>
        simp only [Bool.false_eq_true, if_false]
        rw [if_pos hroot]
  · intro hsd h
    subst hsd
    exact find_repo_dir_disabled_no_marker hm p lvl h
  · intro h
    exact find_repo_dir_none_aux hm sd MAX_GIT_SEARCH_DEPTH p 0 (by omega)
      (fun k hk => h k (by omega))

/-- C6 witness: at depth 20 the search reports none at once. -/
theorem C6_locator_terminates_witness :
    _find_repo_dir (fun _ => false) false ["a"] 20 = none :=
  (C6_locator_terminates (fun _ => false) false ["a"] 20).1 (by decide)

/-- C7: with upward search disabled the locator returns none whenever
the marker is absent from the exact starting directory — the marker
oracle is arbitrary elsewhere, so an ancestor may well contain it — and
still returns the start itself when the marker is present there, because
the marker check precedes the disabled-search check. -/
theorem C7_disabled_search (hm : FsPath → Bool) (p : FsPath) :
    (hm p = false → _find_repo_dir hm true p 0 = none)
    ∧ (hm p = true → _find_repo_dir hm true p 0 = some p) :=
  ⟨find_repo_dir_disabled_no_marker hm p 0,
   find_repo_dir_marker hm true p 0 (by decide)⟩

/-- C7 witness: marker present only at the root ancestor, search
disabled, start is one level below: not found. -/
theorem C7_disabled_search_witness :
    _find_repo_dir (fun q => decide (q = [])) true ["a"] 0 = none :=
  (C7_disabled_search (fun q => decide (q = [])) ["a"]).1 (by decide)

/-- C9: the maximum upward-search depth is the fixed constant 20 — the
public entry points `get_version`, `new_client` and `Git.make` take no
depth parameter, so a caller cannot configure it — the locator inspects
at most the 20 directories `ancestor p 0 .. ancestor p 19` (its result
is unchanged under any oracle agreeing on those), and a marker sitting
20 or more parent levels above the start is never found. -/
theorem C9_max_depth_twenty (hm1 hm2 hm : FsPath → Bool) (sd : Bool) (p : FsPath) :
    MAX_GIT_SEARCH_DEPTH = 20
    ∧ ((∀ k, k < 20 → hm1 (ancestor p k) = hm2 (ancestor p k)) →
        _find_repo_dir hm1 sd p 0 = _find_repo_dir hm2 sd p 0)
    ∧ ((∀ k, k < 20 → hm (ancestor p k) = false) → _find_repo_dir hm sd p 0 = none) := by
  refine ⟨rfl, fun h => ?_, fun h => ?_⟩
  · apply find_repo_dir_congr_aux hm1 hm2 sd MAX_GIT_SEARCH_DEPTH p 0 (by omega)
    intro k hk
    refine h k ?_
    have hx : MAX_GIT_SEARCH_DEPTH = 20 := rfl
    omega
  · apply find_repo_dir_none_aux hm sd MAX_GIT_SEARCH_DEPTH p 0 (by omega)
    intro k hk
    refine h k ?_
    have hx : MAX_GIT_SEARCH_DEPTH = 20 := rfl
    omega

/-- C9 witness: a marker exactly 20 parent levels above the start (at
the filesystem root below a 20-deep start) is never found. -/
theorem C9_max_depth_twenty_witness :
    _find_repo_dir (fun q => decide (q = [])) false (List.replicate 20 "a") 0 = none :=
  (C9_max_depth_twenty (fun q => decide (q = [])) (fun q => decide (q = []))
    (fun q => decide (q = [])) false (List.replicate 20 "a")).2.2 (by decide)

/-- C5: get_version returns ok none (no value, no error) when the git
tool is unavailable — in which case the result is independent of the
marker oracle and of everything else, the short-circuit happening before
any repository query — and likewise when root discovery finds nothing. -/
theorem C5_absence_yields_none (hm : FsPath → Bool) (sd : Bool) (root : FsPath)
    (d t : String) :
    (get_version false hm sd root d t = Except.ok none)
    ∧ (_find_repo_dir hm sd root 0 = none →
        get_version true hm sd root d t = Except.ok none) := by
  constructor
  · rfl
  · intro h
    simp [get_version, new_client, Git.make, Git.version, h]

/-- C5 witness: no marker anywhere, tool available: ok none. -/
theorem C5_absence_yields_none_witness :
    get_version true (fun _ => false) false [] "1.2.3-0-gabc" "20250101" = Except.ok none :=
  (C5_absence_yields_none (fun _ => false) false [] "1.2.3-0-gabc" "20250101").2
    (find_repo_dir_none_aux (fun _ => false) false MAX_GIT_SEARCH_DEPTH [] 0 (by omega)
      (fun k hk => rfl))

/-- C8: a handle constructed with no repository root answers none to
revision, url, branch and version queries, for every possible external
tool output — so no tool invocation or renewed discovery can influence
the result; the handle holds only the stored `repo_dir`. -/
theorem C8_not_found_invariant (g : Git) (h : g.repo_dir = none) (r u b d t : String) :
    g.revision r = none ∧ g.url u = none ∧ g.branch b = none
    ∧ g.version d t = Except.ok none := by
  refine ⟨?_, ?_, ?_, ?_⟩ <;> simp [Git.revision, Git.url, Git.branch, Git.version, h]

/-- C8 witness: the concrete not-found handle. -/
theorem C8_not_found_invariant_witness :
    Git.revision ⟨none⟩ "r" = none ∧ Git.url ⟨none⟩ "u" = none
    ∧ Git.branch ⟨none⟩ "b" = none ∧ Git.version ⟨none⟩ "d" "t" = Except.ok none :=
  C8_not_found_invariant ⟨none⟩ rfl "r" "u" "b" "d" "t"

/-- C1: for every descriptor string the parser accepts, the version
produced by `Git.version` follows the three-way rule: dirty gives
`{next}-dev{distance}.g{commit}.d{date}` (the `today` parameter models
the current local date, `date()` of the missing `autobuild/scm/base.py`,
modelled from the spec); clean at positive distance gives
`{next}-dev{distance}.g{commit}`; clean at distance zero gives the tag
version string rendered unchanged — no bump, no suffix — for semantic
(`versionString` of the parsed `Semver`) and non-semantic (the raw
fallback text) tags alike. -/
theorem C1_version_three_way (p : FsPath) (s today : String) (meta : GitMeta)
    (h : _parse_describe s = Except.ok meta) :
    Git.version ⟨some p⟩ s today = Except.ok (some (
      if meta.dirty then
        nextVersionStr meta.version ++ "-dev" ++ toString meta.distance
          ++ ".g" ++ meta.commit ++ ".d" ++ today
      else if meta.distance ≠ 0 then
        nextVersionStr meta.version ++ "-dev" ++ toString meta.distance ++ ".g" ++ meta.commit
      else versionString meta.version)) := by
  simp only [Git.version, h, formatVersion]

/-- C1 witness: the dirty spec example. -/
theorem C1_version_three_way_witness :
    Git.version ⟨some []⟩ "1.2.3-5-gabc123-dirty" "20250101"
      = Except.ok (some "1.2.4-dev5.gabc123.d20250101") := by
  have h : _parse_describe "1.2.3-5-gabc123-dirty"
      = Except.ok ⟨true, 5, "abc123", TagVersion.sv ⟨1, 2, 3, none⟩⟩ := rfl
  have h2 := C1_version_three_way [] "1.2.3-5-gabc123-dirty" "20250101"
    ⟨true, 5, "abc123", TagVersion.sv ⟨1, 2, 3, none⟩⟩ h
  rw [h2]
  rfl

/-- C4: the next version is the tag version with patch incremented and
any pre-release label cleared when the tag is a `Semver` (`Semver.next`
is modelled from the spec, `autobuild/scm/base.py` being outside the
provided sources), and is the raw tag string unchanged when it is not;
the bump builds a new value, the original being untouched by
construction in this pure embedding; and the formatter never bumps a
raw tag at any distance, dirty or clean. -/
theorem C4_next_bump (v : Semver) (s today cm : String) (d : Int) :
    Semver.next v = { major := v.major, minor := v.minor, patch := v.patch + 1, prerelease := none }
    ∧ nextVersionStr (TagVersion.sv v) = Semver.verString ⟨v.major, v.minor, v.patch + 1, none⟩
    ∧ nextVersionStr (TagVersion.raw s) = s
    ∧ formatVersion ⟨true, d, cm, TagVersion.raw s⟩ today
        = s ++ "-dev" ++ toString d ++ ".g" ++ cm ++ ".d" ++ today
    ∧ (d ≠ 0 → formatVersion ⟨false, d, cm, TagVersion.raw s⟩ today
        = s ++ "-dev" ++ toString d ++ ".g" ++ cm) := by
  refine ⟨rfl, rfl, rfl, rfl, fun hd => ?_⟩
  simp [formatVersion, hd]
  rfl

/-- C4 witness: a raw tag at distance 5 is emitted unbumped. -/
theorem C4_next_bump_witness :
    formatVersion ⟨false, 5, "abc", TagVersion.raw "release-foo"⟩ "x"
      = "release-foo-dev5.gabc" := by
  have h := (C4_next_bump ⟨1, 2, 3, none⟩ "release-foo" "x" "abc" 5).2.2.2.2 (by decide)
  rw [h]
  rfl

/-- C2 counterexample: the dirty descriptor `release-foo-5-gabc123-dirty`
has the hyphen-containing non-semver tag `release-foo`, yet parsing
keeps only `foo` as the version — the full tag text is not retained, so
the claim fails for dirty descriptors. -/
theorem C2_counterexample :
    _parse_describe "release-foo-5-gabc123-dirty"
      = Except.ok ⟨true, 5, "abc123", TagVersion.raw "foo"⟩
    ∧ TagVersion.raw "foo" ≠ TagVersion.raw "release-foo" :=
  ⟨rfl, by decide⟩

/-- C2 (amended): parsing a well-formed descriptor always returns the
original distance integer and commit identifier exactly; the full tag
text is retained (as `tagVersionOf`: the parsed `Semver`, or the text
less every leading `v`) for every clean descriptor — hyphenated tags
included, thanks to the right-anchored split — and for dirty descriptors
only when the tag itself contains no hyphen: a dirty descriptor whose
tag contains a hyphen keeps just the part of the tag after its last
hyphen. -/
theorem C2_roundtrip_amended (tagC A B dC cC : List Char)
    (hdne : dC ≠ []) (hdig : ∀ c ∈ dC, c.isDigit = true) (hc : '-' ∉ cC) :
    (_parse_describe (String.mk (tagC ++ '-' :: (dC ++ '-' :: ('g' :: cC))))
        = Except.ok ⟨false, (digitsVal dC : Int), String.mk cC, tagVersionOf tagC⟩)
    ∧ ('-' ∉ tagC →
        _parse_describe (String.mk ((tagC ++ '-' :: (dC ++ '-' :: ('g' :: cC)))
            ++ ['-', 'd', 'i', 'r', 't', 'y']))
          = Except.ok ⟨true, (digitsVal dC : Int), String.mk cC, tagVersionOf tagC⟩)
    ∧ ('-' ∉ B →
        _parse_describe (String.mk (((A ++ '-' :: B) ++ '-' :: (dC ++ '-' :: ('g' :: cC)))
            ++ ['-', 'd', 'i', 'r', 't', 'y']))
          = Except.ok ⟨true, (digitsVal dC : Int), String.mk cC, tagVersionOf B⟩)
    ∧ (Semver.parse (String.mk tagC) = none →
        tagVersionOf tagC = TagVersion.raw (String.mk (tagC.dropWhile (fun c => c = 'v')))) := by
  have hd := dash_not_mem_of_all_digit dC hdig
  have hpy := pyInt_of_all_digit dC hdne hdig
  refine ⟨?_, fun htag => ?_, fun hB => ?_, fun hsv => ?_⟩
  · show parseDescribeChars (tagC ++ '-' :: (dC ++ '-' :: ('g' :: cC))) = _
    rw [parseDescribeChars_clean_eq tagC dC cC hd hc, hpy]
  · show parseDescribeChars ((tagC ++ '-' :: (dC ++ '-' :: ('g' :: cC)))
        ++ ['-', 'd', 'i', 'r', 't', 'y']) = _
    rw [parseDescribeChars_dirty_eq tagC dC cC htag hd hc, hpy]
  · show parseDescribeChars (((A ++ '-' :: B) ++ '-' :: (dC ++ '-' :: ('g' :: cC)))
        ++ ['-', 'd', 'i', 'r', 't', 'y']) = _
    rw [parseDescribeChars_dirty_hyphen_eq A B dC cC hB hd hc, hpy]
  · simp [tagVersionOf, hsv]

/-- C2 witness: a clean descriptor with a hyphenated tag round-trips in
full. -/
theorem C2_roundtrip_amended_witness :
    _parse_describe "1.2.3-rc1-5-gabc"
      = Except.ok ⟨false, 5, "abc", TagVersion.sv ⟨1, 2, 3, some "rc1"⟩⟩ := by
  have h := (C2_roundtrip_amended ['1', '.', '2', '.', '3', '-', 'r', 'c', '1'] [] []
    ['5'] ['a', 'b', 'c'] (by decide) (by decide) (by decide)).1
  exact h

/-- C3 counterexample: a commit component without the `g` prefix does
not raise — the parser unconditionally drops the first character of the
commit component, so `1.2.3-5-xabc123` parses fine with commit
`abc123`. -/
theorem C3_counterexample :
    _parse_describe "1.2.3-5-xabc123"
      = Except.ok ⟨false, 5, "abc123", TagVersion.sv ⟨1, 2, 3, none⟩⟩ := rfl

/-- C3 (amended): a descriptor with too few hyphen-separated components
(one or two) raises the unpack ValueError, and a descriptor of the full
shape whose distance field is not a valid integer literal raises the int
ValueError — for clean descriptors with or without the `g` commit prefix
(a clean last component equal to `dirty` would make the string a dirty
descriptor, hence the exclusion there) and for dirty descriptors over
both tag families, hyphen-free and hyphenated; all errors are surfaced
to the caller, never a defaulted GitMeta. The commit-prefix condition of
the original claim is however not checked at all (see the
counterexample). -/
theorem C3_malformed_errors (l a b tagC A B dC cC eC : List Char)
    (h1 : '-' ∉ l) (ha : '-' ∉ a) (hb : '-' ∉ b)
    (hd : '-' ∉ dC) (hc : '-' ∉ cC)
    (he : '-' ∉ eC) (hene : eC ≠ ['d', 'i', 'r', 't', 'y'])
    (hbad : pyInt dC = none) :
    _parse_describe (String.mk l) = Except.error "ValueError: not enough values to unpack"
    ∧ _parse_describe (String.mk (a ++ '-' :: b))
        = Except.error "ValueError: not enough values to unpack"
    ∧ _parse_describe (String.mk (tagC ++ '-' :: (dC ++ '-' :: ('g' :: cC))))
        = Except.error ("ValueError: invalid literal for int with base 10: " ++ String.mk dC)
    ∧ _parse_describe (String.mk (tagC ++ '-' :: (dC ++ '-' :: eC)))
        = Except.error ("ValueError: invalid literal for int with base 10: " ++ String.mk dC)
    ∧ ('-' ∉ tagC →
        _parse_describe (String.mk ((tagC ++ '-' :: (dC ++ '-' :: eC))
            ++ ['-', 'd', 'i', 'r', 't', 'y']))
          = Except.error ("ValueError: invalid literal for int with base 10: " ++ String.mk dC))
    ∧ ('-' ∉ B →
        _parse_describe (String.mk (((A ++ '-' :: B) ++ '-' :: (dC ++ '-' :: eC))
            ++ ['-', 'd', 'i', 'r', 't', 'y']))
          = Except.error ("ValueError: invalid literal for int with base 10: " ++ String.mk dC)) := by
  refine ⟨?_, ?_, ?_, ?_, fun htag => ?_, fun hB => ?_⟩
  · show parseDescribeChars l = _
    exact parseDescribeChars_single l h1
  · show parseDescribeChars (a ++ '-' :: b) = _
    exact parseDescribeChars_two a b ha hb
  · show parseDescribeChars (tagC ++ '-' :: (dC ++ '-' :: ('g' :: cC))) = _
    rw [parseDescribeChars_clean_eq tagC dC cC hd hc, hbad]
  · show parseDescribeChars (tagC ++ '-' :: (dC ++ '-' :: eC)) = _
    rw [parseDescribeChars_clean_general tagC dC eC hd he hene, hbad]
  · show parseDescribeChars ((tagC ++ '-' :: (dC ++ '-' :: eC))
        ++ ['-', 'd', 'i', 'r', 't', 'y']) = _
    rw [parseDescribeChars_dirty_general tagC dC eC htag hd he, hbad]
  · show parseDescribeChars (((A ++ '-' :: B) ++ '-' :: (dC ++ '-' :: eC))
        ++ ['-', 'd', 'i', 'r', 't', 'y']) = _
    rw [parseDescribeChars_dirty_hyphen_general A B dC eC hB hd he, hbad]

/-- C3 witness: a non-numeric distance raises the surfaced error on a
dirty descriptor as well. -/
theorem C3_malformed_errors_witness :
    _parse_describe "1.2.3-x-gabc-dirty"
      = Except.error "ValueError: invalid literal for int with base 10: x" := by
  have h := (C3_malformed_errors ['u'] ['u'] ['w'] ['1', '.', '2', '.', '3'] [] []
    ['x'] ['c'] ['g', 'a', 'b', 'c']
    (by decide) (by decide) (by decide) (by decide) (by decide) (by decide) (by decide)
    (by decide)).2.2.2.2.1 (by decide)
  exact h

/-- C10: when the tag does not parse as a semantic version the fallback
strips every leading `v` — Python lstrip removes all of them, not one —
so for a clean distance-zero descriptor whose non-semver tag begins
with `v` the emitted version string differs from the tag text by the
stripped characters. -/
theorem C10_lstrip_leading_v (p : FsPath) (rest cC : List Char) (today : String)
    (hsv : Semver.parse (String.mk ('v' :: rest)) = none) (hc : '-' ∉ cC) :
    tagVersionOf ('v' :: rest) = TagVersion.raw (String.mk (rest.dropWhile (fun c => c = 'v')))
    ∧ Git.version ⟨some p⟩ (String.mk (('v' :: rest) ++ '-' :: (['0'] ++ '-' :: ('g' :: cC)))) today
        = Except.ok (some (String.mk (rest.dropWhile (fun c => c = 'v'))))
    ∧ String.mk (rest.dropWhile (fun c => c = 'v')) ≠ String.mk ('v' :: rest) := by
  have h1 : tagVersionOf ('v' :: rest)
      = TagVersion.raw (String.mk (rest.dropWhile (fun c => c = 'v'))) := by
    simp [tagVersionOf, hsv, List.dropWhile_cons]
  refine ⟨h1, ?_, ?_⟩
  · have hd : '-' ∉ (['0'] : List Char) := by decide
    have hparse : _parse_describe (String.mk (('v' :: rest) ++ '-' :: (['0'] ++ '-' :: ('g' :: cC))))
        = Except.ok ⟨false, 0, String.mk cC, tagVersionOf ('v' :: rest)⟩ := by
      show parseDescribeChars (('v' :: rest) ++ '-' :: (['0'] ++ '-' :: ('g' :: cC))) = _
      rw [parseDescribeChars_clean_eq ('v' :: rest) ['0'] cC hd hc]
      rfl
    simp only [Git.version, hparse]
    rw [h1]
    rfl
  · intro he
    have hdata : rest.dropWhile (fun c => c = 'v') = 'v' :: rest := by
      injection he
    have hsuf : rest.dropWhile (fun c => c = 'v') <:+ rest := List.dropWhile_suffix _
    have hlen := List.IsSuffix.length_le hsuf
    rw [hdata] at hlen
    simp only [List.length_cons] at hlen
    omega

/-- C10 witness: the tag `vvrelease` loses both leading `v` characters. -/
theorem C10_lstrip_leading_v_witness :
    Git.version ⟨some []⟩ "vvrelease-0-gabc123" "20250101" = Except.ok (some "release") := by
  have h := (C10_lstrip_leading_v [] ['v', 'r', 'e', 'l', 'e', 'a', 's', 'e']
    ['a', 'b', 'c', '1', '2', '3'] "20250101" (by decide) (by decide)).2.1
  exact h
